import Mathlib

/-!
Verification of the diff-comment alignment engine of this repository
(`src/data_pipeline/transform_align.py`).

The Python source parses a unified diff with the `unidiff` library into
`PatchedFile` / `Hunk` / `Line` objects and then aligns GitHub review
comments to concrete diff lines.  The structures below embed the parsed
data model (the attributes the aligner reads) and the functions embed
`find_hunk_and_line_for_comment`, `get_line_type` and the per-comment
alignment loop of `process_pr_files`, with file I/O and JSON decoding
stripped away: a comment arrives as an already-decoded record.
-/

/-- The classification of one physical diff line, following the leading
marker of the line in the unified diff (`+`, `-`, space, or the
`\ No newline at end of file` marker). -/
inductive LineKind where
  | added
  | removed
  | context
  | nonewline
deriving DecidableEq

/-- One physical line inside a hunk, with the attributes of a `unidiff`
`Line` that the aligner reads: its kind, its raw text (`value`) and the
pre- and post-image line numbers (`none` when not applicable, e.g. no
source number for an added line). -/
structure DiffLine where
  kind : LineKind
  value : String
  source_line_no : Option Int
  target_line_no : Option Int
deriving DecidableEq

/-- `Line.is_added` of unidiff. -/
def DiffLine.is_added (l : DiffLine) : Bool := l.kind == LineKind.added

/-- `Line.is_removed` of unidiff. -/
def DiffLine.is_removed (l : DiffLine) : Bool := l.kind == LineKind.removed

/-- `Line.is_context` of unidiff. -/
def DiffLine.is_context (l : DiffLine) : Bool := l.kind == LineKind.context

/-- A contiguous change region within one file: the four integers of the
`@@ -a,b +c,d @@` header, the trailing section text, and the ordered lines. -/
structure Hunk where
  source_start : Int
  source_length : Int
  target_start : Int
  target_length : Int
  section_header : String
  lines : List DiffLine
deriving DecidableEq

/-- One file entry of the diff, with the `unidiff` `PatchedFile` attributes
the aligner reads: `source_file` and `target_file` are the raw `---`/`+++`
paths (prefixes such as `a/`, `b/` included), plus the ordered hunks. -/
structure PatchedFile where
  source_file : String
  target_file : String
  hunks : List Hunk
deriving DecidableEq

/-- `String.startsWith`, written over the underlying character list so
that proofs can evaluate it on concrete strings. -/
def strStartsWith (s p : String) : Bool :=
  s.data.take p.data.length == p.data

/-- `String.drop` (drop the first `n` characters), written over the
underlying character list so that proofs can evaluate it. -/
def strDrop (s : String) (n : Nat) : String :=
  ⟨s.data.drop n⟩

/-- Python's `str.endswith` (= `String.endsWith`), written over the
underlying character list so that proofs can evaluate it. -/
def strEndsWith (s p : String) : Bool :=
  s.data.drop (s.data.length - p.data.length) == p.data

/-- Python's `str.strip` (= `String.trim`): remove leading and trailing
whitespace, written over the underlying character list so that proofs can
evaluate it. -/
def strTrim (s : String) : String :=
  ⟨((s.data.dropWhile Char.isWhitespace).reverse.dropWhile
      Char.isWhitespace).reverse⟩

/-- Modelled from the spec (§3: a path "may carry a `a/`/`b/` style prefix
that must be stripped or tolerated when matching against comment paths"):
the `path` property of a unidiff `PatchedFile`, whose source is not part of
this repository.  It strips the `a/`/`b/` prefix pair heuristically and
otherwise falls back to the raw source path. -/
def PatchedFile.path (f : PatchedFile) : String :=
  if strStartsWith f.source_file "a/" && strStartsWith f.target_file "b/" then
    strDrop f.source_file 2
  else if strStartsWith f.source_file "a/" && f.target_file == "/dev/null" then
    strDrop f.source_file 2
  else if strStartsWith f.target_file "b/" && f.source_file == "/dev/null" then
    strDrop f.target_file 2
  else
    f.source_file

/-- The full parse result: the ordered sequence of file entries. -/
abbrev ParsedDiff := List PatchedFile

/-- An external comment record, with the fields the aligner reads
(all nullable, as delivered by the JSON payload). -/
structure RawComment where
  id : Option Int
  user_login : Option String
  body : Option String
  created_at : Option String
  html_url : Option String
  path : Option String
  position : Option Int
  original_position : Option Int
  commit_id : Option String
  original_commit_id : Option String
  diff_hunk : Option String
  side : Option String
deriving DecidableEq

/-- The exact-match test of the file-lookup loop
(`transform_align.py` lines 58-60): the comment path equals the raw
source path, the raw target path, or the prefix-stripped `path` attribute. -/
def fileMatchesExact (f : PatchedFile) (p : String) : Bool :=
  f.source_file == p || f.target_file == p || f.path == p

/-- The suffix fallback test of the file-lookup loop
(`transform_align.py` lines 65-66): a non-empty comment path that the raw
source or target path ends with, preceded by a slash. -/
def fileMatchesSuffix (f : PatchedFile) (p : String) : Bool :=
  !(p == "") && (strEndsWith f.source_file ("/" ++ p) ||
                 strEndsWith f.target_file ("/" ++ p))

/-- Either tier of the file-lookup loop succeeds on this file. -/
def fileMatchesAny (f : PatchedFile) (p : String) : Bool :=
  fileMatchesExact f p || fileMatchesSuffix f p

/-- The file-lookup loop of `find_hunk_and_line_for_comment`
(`transform_align.py` lines 56-69): scan the files in diff order and stop
at the first one whose exact test or, failing that, suffix test succeeds. -/
def findFileForComment (files : List PatchedFile) (p : String) :
    Option PatchedFile :=
  match files with
  | [] => none
  | f :: rest =>
    if fileMatchesExact f p then some f
    else if fileMatchesSuffix f p then some f
    else findFileForComment rest p

/-- A line advances the diff-view position counter exactly when it is a
context or added line (`transform_align.py` line 81). -/
def countsForPosition (l : DiffLine) : Bool :=
  l.is_context || l.is_added

/-- The inner loop of the position walk (`transform_align.py` lines 79-85):
scan the lines of one hunk, incrementing the running counter on every
context/added line, and stop when the counter reaches the wanted position.
Returns the found line (if any) and the counter after the scan. -/
def walkHunkLines : List DiffLine → Int → Int → Option DiffLine × Int
  | [], cnt, _ => (none, cnt)
  | l :: rest, cnt, pos =>
    if countsForPosition l then
      if cnt + 1 == pos then (some l, cnt + 1)
      else walkHunkLines rest (cnt + 1) pos
    else
      walkHunkLines rest cnt pos

/-- The outer loop of the position walk (`transform_align.py` lines 78-85):
walk the hunks of the matched file in order, threading the running counter
through them, and stop at the hunk whose scan finds the position. -/
def walkHunks : List Hunk → Int → Int → Option (Hunk × DiffLine) × Int
  | [], cnt, _ => (none, cnt)
  | h :: rest, cnt, pos =>
    match walkHunkLines h.lines cnt pos with
    | (some l, cnt1) => (some (h, l), cnt1)
    | (none, cnt1) => walkHunks rest cnt1 pos

/-- `find_hunk_and_line_for_comment` (`transform_align.py` lines 44-89):
reject a missing/empty path, a missing position or a position `<= 0`;
locate the file by the two-tier loop; then walk that file's hunks with a
counter starting at 0.  Returns the matched file, hunk and line, or `none`. -/
def find_hunk_and_line_for_comment (parsed_diff : ParsedDiff)
    (comment_path : Option String) (comment_pos : Option Int) :
    Option (PatchedFile × Hunk × DiffLine) :=
  match comment_path, comment_pos with
  | none, _ => none
  | _, none => none
  | some p, some pos =>
    if p == "" || pos ≤ 0 then none
    else
      match findFileForComment parsed_diff p with
      | none => none
      | some f =>
        match (walkHunks f.hunks 0 pos).1 with
        | some (h, l) => some (f, h, l)
        | none => none

/-- `get_line_type` (`transform_align.py` lines 91-96). -/
def get_line_type (l : DiffLine) : String :=
  if l.is_added then "added"
  else if l.is_removed then "removed"
  else if l.is_context then "context"
  else "unknown"

/-- The `line_offset` expression of the emitted record
(`transform_align.py` lines 170-174): target-image offset for
context/added lines, source-image offset otherwise.  The Python source
subtracts the raw line-number attribute; the `getD 0` totalises the
`none` case on which Python would fault. -/
def line_offset_of (h : Hunk) (l : DiffLine) : Int :=
  if l.is_context || l.is_added then (l.target_line_no.getD 0) - h.target_start
  else (l.source_line_no.getD 0) - h.source_start

/-- The aligned output record (`transform_align.py` lines 150-177), with
the same fields as the emitted JSON object. -/
structure AlignedRecord where
  comment_id : Option Int
  comment_user_login : Option String
  comment_body : Option String
  comment_created_at : Option String
  comment_html_url : Option String
  comment_path : String
  comment_position : Int
  comment_original_position : Option Int
  comment_commit_id : Option String
  comment_original_commit_id : Option String
  diff_line_content : String
  diff_line_type : String
  diff_line_source_no : Option Int
  diff_line_target_no : Option Int
  diff_hunk_header : String
  diff : Option String
  side : Option String
  line_offset : Int
  diff_file_source : String
  diff_file_target : String
deriving DecidableEq

/-- Build the aligned record for a resolved comment
(`transform_align.py` lines 150-177). -/
def mkAlignedRecord (c : RawComment) (comment_path : String)
    (comment_pos : Int) (f : PatchedFile) (h : Hunk) (l : DiffLine) :
    AlignedRecord :=
  { comment_id := c.id
    comment_user_login := c.user_login
    comment_body := c.body
    comment_created_at := c.created_at
    comment_html_url := c.html_url
    comment_path := comment_path
    comment_position := comment_pos
    comment_original_position := c.original_position
    comment_commit_id := c.commit_id
    comment_original_commit_id := c.original_commit_id
    diff_line_content := l.value
    diff_line_type := get_line_type l
    diff_line_source_no := l.source_line_no
    diff_line_target_no := l.target_line_no
    diff_hunk_header := strTrim h.section_header
    diff := c.diff_hunk
    side := c.side
    line_offset := line_offset_of h l
    diff_file_source := f.source_file
    diff_file_target := f.target_file }

/-- The position the aligner resolves with (`transform_align.py`
lines 126-131): the comment's `position` when non-null, otherwise its
`original_position`. -/
def effective_position (c : RawComment) : Option Int :=
  match c.position with
  | some p => some p
  | none => c.original_position

/-- The per-comment body of the loop in `process_pr_files`
(`transform_align.py` lines 124-182): select the effective position, skip
on a missing/empty path or a missing position, resolve through
`find_hunk_and_line_for_comment`, and emit the record on success
(`none` = the comment is skipped and only counted). -/
def alignComment (d : ParsedDiff) (c : RawComment) : Option AlignedRecord :=
  let comment_pos := effective_position c
  match c.path with
  | none => none
  | some p =>
    if p == "" then none
    else
      match comment_pos with
      | none => none
      | some pos =>
        match find_hunk_and_line_for_comment d (some p) (some pos) with
        | some (f, h, l) => some (mkAlignedRecord c p pos f h l)
        | none => none

/-- The comment loop of `process_pr_files` (`transform_align.py`
lines 113-182), stripped of file I/O: every comment either appends one
aligned record (input order preserved) or increments the skip counter —
the source keeps only the integer `skipped_comments`, not the skipped
comments or their reasons. -/
def processComments (d : ParsedDiff) : List RawComment → List AlignedRecord × Nat
  | [] => ([], 0)
  | c :: rest =>
    let tail := processComments d rest
    match alignComment d c with
    | some r => (r :: tail.1, tail.2)
    | none => (tail.1, tail.2 + 1)

/-- The context/added lines of one hunk, each paired with its hunk, in
order: exactly the lines that advance the position counter. -/
def hunkACPairs (h : Hunk) : List (Hunk × DiffLine) :=
  (h.lines.filter countsForPosition).map (fun l => (h, l))

/-- The context/added lines of a whole file (its hunks in order), each
paired with its hunk: the diff view the 1-based position indexes into. -/
def fileACPairs : List Hunk → List (Hunk × DiffLine)
  | [] => []
  | h :: rest => hunkACPairs h ++ fileACPairs rest

/-- Parse invariant of one line: a context/added line carries a
post-image line number, a removed/context line a pre-image line number
(the diff parser assigns both counters this way). -/
def WFLine (l : DiffLine) : Bool :=
  (if countsForPosition l then l.target_line_no.isSome else true) &&
  (if l.is_removed || l.is_context then l.source_line_no.isSome else true)

/-- Parse invariant of a file entry: every line of every hunk is
well-formed in the sense of `WFLine`. -/
def WFFile (f : PatchedFile) : Bool :=
  f.hunks.all (fun h => h.lines.all WFLine)

/-- Modelled from the spec (§4.2/§7 `SkipReason` taxonomy): the reason a
comment is skipped.  The source has no such value — it only increments an
integer counter — so the taxonomy exists only in the spec. -/
inductive SkipReason where
  | GeneralComment
  | Outdated
  | FileNotFound
  | PositionNotFound
deriving DecidableEq

/-- Modelled from the spec (§4.2 per-comment algorithm): classify a
comment into its skip reason, or `none` when it resolves.  Used to compare
the spec's recorded-reason contract with the source's count-only output. -/
def classifyCommentSpec (d : ParsedDiff) (c : RawComment) :
    Option SkipReason :=
  match c.path with
  | none => some SkipReason.GeneralComment
  | some p =>
    match effective_position c with
    | none => some SkipReason.Outdated
    | some pos =>
      if pos ≤ 0 then some SkipReason.PositionNotFound
      else
        match findFileForComment d p with
        | none => some SkipReason.FileNotFound
        | some f =>
          match (walkHunks f.hunks 0 pos).1 with
          | none => some SkipReason.PositionNotFound
          | some _ => none

/-- Modelled from the spec wording of the two-tier lookup (§4.2 step 2,
claim C2): first scan the whole diff for a file whose raw source or target
path equals the comment path exactly; only when no file matches exactly,
scan again for a suffix match.  This is the policy the claim states; the
source interleaves the two tiers per file instead. -/
def findFileTwoTierSpec (files : List PatchedFile) (p : String) :
    Option PatchedFile :=
  match files.find? (fun f => f.source_file == p || f.target_file == p) with
  | some f => some f
  | none =>
    files.find? (fun f =>
      strEndsWith f.source_file ("/" ++ p) || strEndsWith f.target_file ("/" ++ p))

/-- A comment record with every field null, to build fixtures from. -/
def baseComment : RawComment :=
  { id := none, user_login := none, body := none, created_at := none
    html_url := none, path := none, position := none
    original_position := none, commit_id := none
    original_commit_id := none, diff_hunk := none, side := none }

/-- Fixture: first hunk of the example file `src/app.py`. -/
def fixHunk1 : Hunk :=
  { source_start := 1, source_length := 3, target_start := 1
    target_length := 4, section_header := "def main():"
    lines :=
      [ { kind := .context, value := "keep\n"
          source_line_no := some 1, target_line_no := some 1 }
      , { kind := .added, value := "new1\n"
          source_line_no := none, target_line_no := some 2 }
      , { kind := .removed, value := "gone\n"
          source_line_no := some 2, target_line_no := none }
      , { kind := .context, value := "keep2\n"
          source_line_no := some 3, target_line_no := some 3 } ] }

/-- Fixture: second hunk of the example file `src/app.py`. -/
def fixHunk2 : Hunk :=
  { source_start := 10, source_length := 2, target_start := 11
    target_length := 3, section_header := ""
    lines :=
      [ { kind := .context, value := "k\n"
          source_line_no := some 10, target_line_no := some 11 }
      , { kind := .added, value := "n2\n"
          source_line_no := none, target_line_no := some 12 } ] }

/-- Fixture: an example file entry with two hunks and `a/`/`b/` prefixes. -/
def fixFile1 : PatchedFile :=
  { source_file := "a/src/app.py", target_file := "b/src/app.py"
    hunks := [fixHunk1, fixHunk2] }

/-- Fixture: a one-file example diff. -/
def fixDiff1 : ParsedDiff := [fixFile1]

/-- Fixture (claim C2): a file whose paths only suffix-match `m.py`. -/
def exFsub : PatchedFile :=
  { source_file := "a/sub/m.py", target_file := "b/sub/m.py", hunks := [] }

/-- Fixture (claim C2): a file whose paths exactly equal `m.py`. -/
def exFtop : PatchedFile :=
  { source_file := "m.py", target_file := "m.py", hunks := [] }

/-- Fixture (claim C8): a renamed file, bare pre- and post-rename paths. -/
def renFile : PatchedFile :=
  { source_file := "old.py", target_file := "new.py"
    hunks :=
      [ { source_start := 1, source_length := 1, target_start := 1
          target_length := 2, section_header := ""
          lines :=
            [ { kind := .context, value := "same\n"
                source_line_no := some 1, target_line_no := some 1 }
            , { kind := .added, value := "extra\n"
                source_line_no := none, target_line_no := some 2 } ] } ] }

/-- Fixture (claim C8): a comment addressed to the pre-rename path. -/
def cRenSrc : RawComment :=
  { baseComment with id := some 7, path := some "old.py", position := some 2 }

/-- Fixture (claim C8): the same comment addressed to the post-rename path. -/
def cRenTgt : RawComment := { cRenSrc with path := some "new.py" }

/-- Fixture (claim C7): a comment with no path at all. -/
def cGen : RawComment := { baseComment with id := some 1 }

/-- Fixture (claim C7): a path-anchored comment whose `position` and
`original_position` are both null. -/
def cOutd : RawComment := { baseComment with id := some 2, path := some "x" }

/-- Fixture (claim C1, Scenario B): `position` null, `original_position` 2. -/
def cScenB : RawComment :=
  { baseComment with id := some 3, path := some "src/app.py"
                     original_position := some 2 }

/-- Fixture (claim C10): `position` 99 does not exist in the diff view,
while `original_position` 1 would resolve. -/
def cStale : RawComment :=
  { baseComment with id := some 4, path := some "src/app.py"
                     position := some 99, original_position := some 1 }

/-- Fixture: the added line of `fixHunk1` (structurally equal to the
second entry of its line list). -/
def fixAddedLine : DiffLine :=
  { kind := .added, value := "new1\n"
    source_line_no := none, target_line_no := some 2 }

/-- Fixture: the aligned record that Scenario B resolves to. -/
def fixRecB : AlignedRecord :=
  mkAlignedRecord cScenB "src/app.py" 2 fixFile1 fixHunk1 fixAddedLine

theorem walkHunkLines_spec (lines : List DiffLine) (cnt pos : Int) :
    walkHunkLines lines cnt pos =
      if cnt < pos ∧ pos ≤ cnt + (lines.filter countsForPosition).length then
        ((lines.filter countsForPosition).get? (pos - cnt - 1).toNat, pos)
      else (none, cnt + (lines.filter countsForPosition).length) := by
  induction lines generalizing cnt with
  | nil =>
    simp only [walkHunkLines, List.filter_nil, List.length_nil, Nat.cast_zero,
      add_zero]
    rw [if_neg]
    omega
  | cons l rest ih =>
    simp only [walkHunkLines]
    by_cases hc : countsForPosition l
    · simp only [hc, if_true, List.filter_cons_of_pos, List.length_cons]
      by_cases he : cnt + 1 = pos
      · have hbeq : (cnt + 1 == pos) = true := beq_iff_eq.mpr he
        simp only [hbeq, if_true]
        rw [if_pos]
        · have hidx : (pos - cnt - 1).toNat = 0 := by omega
          simp [hidx, he]
        · constructor <;> push_cast <;> omega
      · have hbeq : (cnt + 1 == pos) = false := by
          simp [he]
        simp only [hbeq, Bool.false_eq_true, if_false]
        rw [ih (cnt + 1)]
        by_cases h1 : cnt + 1 < pos ∧ pos ≤ cnt + 1 + (rest.filter countsForPosition).length
        · rw [if_pos h1, if_pos]
          · have hidx : (pos - cnt - 1).toNat = (pos - (cnt + 1) - 1).toNat + 1 := by
              omega
            rw [hidx, List.get?_cons_succ]
          · push_cast
            push_cast at h1
            omega
        · rw [if_neg h1, if_neg]
          · rw [Prod.mk.injEq]
            refine ⟨rfl, ?_⟩
            push_cast
            ring
          · push_cast at h1 ⊢
            omega
    · simp only [hc, Bool.false_eq_true, if_false, List.filter_cons_of_neg,
        not_false_iff]
      exact ih cnt

theorem hunkACPairs_length (h : Hunk) :
    (hunkACPairs h).length = (h.lines.filter countsForPosition).length := by
  simp [hunkACPairs]

theorem walkHunks_spec (hunks : List Hunk) (cnt pos : Int) :
    walkHunks hunks cnt pos =
      if cnt < pos ∧ pos ≤ cnt + (fileACPairs hunks).length then
        ((fileACPairs hunks).get? (pos - cnt - 1).toNat, pos)
      else (none, cnt + (fileACPairs hunks).length) := by
  induction hunks generalizing cnt with
  | nil =>
    simp only [walkHunks, fileACPairs, List.length_nil, Nat.cast_zero, add_zero]
    rw [if_neg]
    omega
  | cons h rest ih =>
    simp only [walkHunks, fileACPairs, List.length_append, hunkACPairs_length]
    rw [walkHunkLines_spec]
    by_cases h1 : cnt < pos ∧ pos ≤ cnt + (h.lines.filter countsForPosition).length
    · rw [if_pos h1]
      have hlt : (pos - cnt - 1).toNat < (h.lines.filter countsForPosition).length := by
        omega
      have hget := List.get?_eq_get (l := h.lines.filter countsForPosition) hlt
      rw [hget]
      dsimp only
      rw [if_pos]
      · have happ : (hunkACPairs h ++ fileACPairs rest).get? (pos - cnt - 1).toNat =
            (hunkACPairs h).get? (pos - cnt - 1).toNat := by
          apply List.get?_append
          rw [hunkACPairs_length]
          exact hlt
        rw [happ, hunkACPairs, List.get?_map, hget]
        rfl
      · push_cast
        push_cast at h1
        omega
    · rw [if_neg h1]
      dsimp only
      rw [ih]
      by_cases h2 : cnt + (h.lines.filter countsForPosition).length < pos ∧
          pos ≤ cnt + (h.lines.filter countsForPosition).length +
            (fileACPairs rest).length
      · rw [if_pos h2, if_pos]
        · have hge : (hunkACPairs h).length ≤ (pos - cnt - 1).toNat := by
            rw [hunkACPairs_length]; omega
          rw [List.get?_append_right hge, Prod.mk.injEq]
          refine ⟨?_, rfl⟩
          congr 1
          rw [hunkACPairs_length]
          omega
        · push_cast
          push_cast at h1 h2
          omega
      · rw [if_neg h2, if_neg, Prod.mk.injEq]
        · refine ⟨rfl, ?_⟩
          push_cast
          ring
        · push_cast
          push_cast at h1 h2
          omega

theorem fileACPairs_mem {hunks : List Hunk} {hl : Hunk × DiffLine}
    (hmem : hl ∈ fileACPairs hunks) :
    hl.1 ∈ hunks ∧ hl.2 ∈ hl.1.lines ∧ countsForPosition hl.2 = true := by
  induction hunks with
  | nil => simp [fileACPairs] at hmem
  | cons h rest ih =>
    rw [fileACPairs, List.mem_append] at hmem
    rcases hmem with hin | hin
    · rw [hunkACPairs, List.mem_map] at hin
      obtain ⟨l, hl_mem, rfl⟩ := hin
      rw [List.mem_filter] at hl_mem
      exact ⟨List.mem_cons_self _ _, hl_mem.1, hl_mem.2⟩
    · obtain ⟨ha, hb, hcnt⟩ := ih hin
      exact ⟨List.mem_cons_of_mem _ ha, hb, hcnt⟩

theorem findFile_none_iff (files : List PatchedFile) (p : String) :
    findFileForComment files p = none ↔
      ∀ f ∈ files, fileMatchesAny f p = false := by
  induction files with
  | nil => simp [findFileForComment]
  | cons f rest ih =>
    rw [findFileForComment]
    by_cases he : fileMatchesExact f p
    · simp [he, fileMatchesAny]
    · by_cases hs : fileMatchesSuffix f p
      · simp [he, hs, fileMatchesAny]
      · simp only [he, hs, Bool.false_eq_true, if_false, ih,
          List.mem_cons, fileMatchesAny]
        constructor
        · rintro hall g (rfl | hg)
          · simp [he, hs]
          · exact hall g hg
        · intro hall g hg
          exact hall g (Or.inr hg)

theorem findFile_first (files : List PatchedFile) (p : String)
    (f : PatchedFile) (hfind : findFileForComment files p = some f) :
    ∃ i : Nat, files.get? i = some f ∧ fileMatchesAny f p = true ∧
      ∀ j, j < i → ∀ g, files.get? j = some g → fileMatchesAny g p = false := by
  induction files with
  | nil => simp [findFileForComment] at hfind
  | cons hd rest ih =>
    rw [findFileForComment] at hfind
    by_cases he : fileMatchesExact hd p
    · rw [if_pos he] at hfind
      refine ⟨0, ?_, ?_, ?_⟩
      · simpa using hfind
      · obtain rfl : hd = f := by simpa using hfind
        simp [fileMatchesAny, he]
      · intro j hj; omega
    · rw [if_neg he] at hfind
      by_cases hs : fileMatchesSuffix hd p
      · rw [if_pos hs] at hfind
        refine ⟨0, ?_, ?_, ?_⟩
        · simpa using hfind
        · obtain rfl : hd = f := by simpa using hfind
          simp [fileMatchesAny, hs]
        · intro j hj; omega
      · rw [if_neg hs] at hfind
        obtain ⟨i, hi, hmatch, hbefore⟩ := ih hfind
        refine ⟨i + 1, by simpa using hi, hmatch, ?_⟩
        intro j hj g hg
        cases j with
        | zero =>
          obtain rfl : hd = g := by simpa using hg
          simp [fileMatchesAny, he, hs]
        | succ j =>
          exact hbefore j (by omega) g (by simpa using hg)

theorem findFile_mem (files : List PatchedFile) (p : String)
    (f : PatchedFile) (hfind : findFileForComment files p = some f) :
    f ∈ files := by
  obtain ⟨i, hi, -, -⟩ := findFile_first files p f hfind
  exact List.get?_mem hi

theorem walkHunks_found {hunks : List Hunk} {pos : Int} {pr : Hunk × DiffLine}
    (hwk : (walkHunks hunks 0 pos).1 = some pr) :
    0 < pos ∧ pos ≤ (fileACPairs hunks).length ∧
      (fileACPairs hunks).get? (pos - 1).toNat = some pr := by
  rw [walkHunks_spec] at hwk
  by_cases hcond : (0:Int) < pos ∧ pos ≤ 0 + ((fileACPairs hunks).length : Int)
  · rw [if_pos hcond] at hwk
    dsimp only at hwk
    refine ⟨hcond.1, by have := hcond.2; omega, ?_⟩
    have : pos - 0 - 1 = pos - 1 := by ring
    rw [this] at hwk
    exact hwk
  · rw [if_neg hcond] at hwk
    dsimp only at hwk
    exact absurd hwk (by simp)

theorem countsForPosition_kind {l : DiffLine}
    (hc : countsForPosition l = true) :
    l.kind = LineKind.context ∨ l.kind = LineKind.added := by
  cases hk : l.kind <;>
    simp [countsForPosition, DiffLine.is_context, DiffLine.is_added, hk] at hc ⊢

theorem find_result_line {d : ParsedDiff} {cp : Option String}
    {cpos : Option Int} {f : PatchedFile} {h : Hunk} {l : DiffLine}
    (hfind : find_hunk_and_line_for_comment d cp cpos = some (f, h, l)) :
    f ∈ d ∧ h ∈ f.hunks ∧ l ∈ h.lines ∧ countsForPosition l = true := by
  cases cp with
  | none =>
    cases cpos with
    | none =>
      rw [show find_hunk_and_line_for_comment d none none = none from rfl] at hfind
      cases hfind
    | some pos =>
      rw [show find_hunk_and_line_for_comment d none (some pos) = none from rfl]
        at hfind
      cases hfind
  | some p =>
    cases cpos with
    | none =>
      rw [show find_hunk_and_line_for_comment d (some p) none = none from rfl]
        at hfind
      cases hfind
    | some pos =>
      rw [find_hunk_and_line_for_comment] at hfind
      by_cases hguard : (p == "" || decide (pos ≤ 0)) = true
      · rw [if_pos hguard] at hfind
        cases hfind
      · rw [if_neg hguard] at hfind
        cases hff : findFileForComment d p with
        | none => rw [hff] at hfind; cases hfind
        | some fl =>
          rw [hff] at hfind
          dsimp only at hfind
          cases hwk : (walkHunks fl.hunks 0 pos).1 with
          | none => rw [hwk] at hfind; cases hfind
          | some pr =>
            rw [hwk] at hfind
            obtain ⟨hk, lk⟩ := pr
            simp only [Option.some.injEq, Prod.mk.injEq] at hfind
            obtain ⟨rfl, rfl, rfl⟩ := hfind
            have hmem := List.get?_mem (walkHunks_found hwk).2.2
            have hprops := fileACPairs_mem hmem
            exact ⟨findFile_mem _ _ _ hff, hprops.1, hprops.2.1, hprops.2.2⟩

theorem WFLine_target {l : DiffLine} (hwl : WFLine l = true)
    (hc : countsForPosition l = true) :
    ∃ t, l.target_line_no = some t := by
  rw [WFLine, Bool.and_eq_true] at hwl
  have h1 := hwl.1
  rw [hc] at h1
  rw [if_pos rfl] at h1
  cases ht : l.target_line_no with
  | none => rw [ht] at h1; cases h1
  | some t => exact ⟨t, rfl⟩

/-- C6: a comment whose effective position is zero or negative fails
resolution immediately: the resolver returns no file, no hunk and no line,
for every diff and every path, without walking any hunks. -/
theorem c6_nonpositive_position_rejected (d : ParsedDiff)
    (cp : Option String) (pos : Int) (hpos : pos ≤ 0) :
    find_hunk_and_line_for_comment d cp (some pos) = none := by
  cases cp with
  | none => rfl
  | some p =>
    rw [find_hunk_and_line_for_comment]
    rw [if_pos]
    simp [hpos]

theorem c6_witness :
    find_hunk_and_line_for_comment fixDiff1 (some "src/app.py") (some 0) = none ∧
    find_hunk_and_line_for_comment fixDiff1 (some "src/app.py") (some (-3)) = none :=
  ⟨c6_nonpositive_position_rejected fixDiff1 (some "src/app.py") 0 (by decide),
   c6_nonpositive_position_rejected fixDiff1 (some "src/app.py") (-3) (by decide)⟩

/-- C4: no Removed line is ever the resolution target: any line returned by
`find_hunk_and_line_for_comment` has `kind ≠ removed` (only Added and
Context lines advance the counter), and consequently no emitted record
carries `diff_line_type = "removed"` — with no separate post-filter. -/
theorem c4_no_removed_target (d : ParsedDiff) :
    (∀ cp cpos f h l,
      find_hunk_and_line_for_comment d cp cpos = some (f, h, l) ->
        l.kind ≠ LineKind.removed) ∧
    (∀ c r, alignComment d c = some r → r.diff_line_type ≠ "removed") := by
  have hkind : ∀ cp cpos f h (l : DiffLine),
      find_hunk_and_line_for_comment d cp cpos = some (f, h, l) ->
        l.kind = LineKind.context ∨ l.kind = LineKind.added := by
    intro cp cpos f h l hfind
    exact countsForPosition_kind (find_result_line hfind).2.2.2
  constructor
  · intro cp cpos f h l hfind
    rcases hkind cp cpos f h l hfind with hck | hck <;> simp [hck]
  · intro c r halign
    simp only [alignComment] at halign
    cases hp : c.path with
    | none => rw [hp] at halign; cases halign
    | some p =>
      rw [hp] at halign
      dsimp only at halign
      by_cases he : (p == "") = true
      · rw [if_pos he] at halign; cases halign
      · rw [if_neg he] at halign
        cases heff : effective_position c with
        | none => rw [heff] at halign; cases halign
        | some pos =>
          rw [heff] at halign
          dsimp only at halign
          cases hff : find_hunk_and_line_for_comment d (some p) (some pos) with
          | none => rw [hff] at halign; cases halign
          | some tr =>
            rw [hff] at halign
            obtain ⟨f, hk, l⟩ := tr
            simp only [Option.some.injEq] at halign
            rw [← halign]
            show get_line_type l ≠ "removed"
            rcases hkind (some p) (some pos) f hk l hff with hck | hck <;>
              simp [get_line_type, DiffLine.is_added, DiffLine.is_removed,
                DiffLine.is_context, hck]

theorem c4_witness :
    find_hunk_and_line_for_comment fixDiff1 (some "src/app.py") (some 2) =
      some (fixFile1, fixHunk1, fixAddedLine) ∧
    fixAddedLine.kind ≠ LineKind.removed ∧
    (alignComment fixDiff1 cScenB).map (fun r => r.diff_line_type) =
      some "added" := by
  refine ⟨by decide, ?_, by decide⟩
  exact (c4_no_removed_target fixDiff1).1 (some "src/app.py") (some 2)
    fixFile1 fixHunk1 fixAddedLine (by decide)

/-- C3: the diff-view position counter is scoped per file and cumulative
across its hunks: the walk over a file started at counter 0 succeeds exactly
for the positions `1..N`, where `N` is the number of Added+Context lines of
the whole file (`fileACPairs`), and position `k` returns the `k`-th such
line — distinct positions, in hunk order, none counted twice; moreover the
resolver applies exactly this walk, with the counter restarted at 0, to the
matched file regardless of the rest of the diff. -/
theorem c3_position_counter (f : PatchedFile) (pos : Int) :
    ((walkHunks f.hunks 0 pos).1 =
      if 1 ≤ pos ∧ pos ≤ ((fileACPairs f.hunks).length : Int) then
        (fileACPairs f.hunks).get? (pos - 1).toNat
      else none) ∧
    (∀ (d : ParsedDiff) (p : String), p ≠ "" → 0 < pos →
      findFileForComment d p = some f →
      find_hunk_and_line_for_comment d (some p) (some pos) =
        ((walkHunks f.hunks 0 pos).1).map (fun hl => (f, hl.1, hl.2))) := by
  constructor
  · rw [walkHunks_spec]
    by_cases hcond : (0:Int) < pos ∧ pos ≤ 0 + ((fileACPairs f.hunks).length : Int)
    · rw [if_pos hcond, if_pos (by omega)]
      dsimp only
      congr 1
      omega
    · rw [if_neg hcond, if_neg (by omega)]
  · intro d p hp hpos hfile
    rw [find_hunk_and_line_for_comment]
    rw [if_neg]
    · rw [hfile]
      dsimp only
      cases hwk : (walkHunks f.hunks 0 pos).1 with
      | none => rfl
      | some pr => cases pr; rfl
    · simp [hp]
      omega

theorem c3_witness :
    find_hunk_and_line_for_comment fixDiff1 (some "src/app.py") (some 4) =
      ((walkHunks fixFile1.hunks 0 4).1).map (fun hl => (fixFile1, hl.1, hl.2)) ∧
    (walkHunks fixFile1.hunks 0 4).1 = (fileACPairs fixFile1.hunks).get? 3 ∧
    (fileACPairs fixFile1.hunks).length = 5 := by
  refine ⟨?_, ?_, by decide⟩
  · exact (c3_position_counter fixFile1 4).2 fixDiff1 "src/app.py"
      (by decide) (by decide) (by decide)
  · rw [(c3_position_counter fixFile1 4).1]
    decide

/-- C9: when several FileDiffs match a comment path, the resolver selects
the first matching file in diff order: the selected file sits at an index
before which every file fails both match tiers, so later files are never
considered once a match is found. -/
theorem c9_first_match_wins (files : List PatchedFile) (p : String)
    (f : PatchedFile) (hfind : findFileForComment files p = some f) :
    ∃ i : Nat, files.get? i = some f ∧ fileMatchesAny f p = true ∧
      ∀ j, j < i → ∀ g, files.get? j = some g → fileMatchesAny g p = false :=
  findFile_first files p f hfind

theorem c9_witness :
    fileMatchesAny exFtop "m.py" = true ∧
    (∃ i : Nat, [exFsub, exFtop].get? i = some exFsub ∧
      fileMatchesAny exFsub "m.py" = true ∧
      ∀ j, j < i → ∀ g, [exFsub, exFtop].get? j = some g →
        fileMatchesAny g "m.py" = false) :=
  ⟨by decide, c9_first_match_wins [exFsub, exFtop] "m.py" exFsub (by decide)⟩

/-- C1: the position used for resolution is the comment's `position` field
when that field is non-null and otherwise its `original_position`
(`effective_position`); a comment with `position = null` and
`original_position` set resolves through that stale position rather than
being skipped, and a comment with both fields null is skipped without any
resolution attempt (the outcome is `none` for every diff). -/
theorem c1_effective_position (d : ParsedDiff) (c : RawComment) :
    (∀ p, c.position = some p → effective_position c = some p) ∧
    (c.position = none → effective_position c = c.original_position) ∧
    (c.position = none → c.original_position = none → alignComment d c = none) ∧
    (∀ pos, effective_position c = some pos →
      alignComment d c =
        match c.path with
        | none => none
        | some p =>
          if p == "" then none
          else
            match find_hunk_and_line_for_comment d (some p) (some pos) with
            | some (f, h, l) => some (mkAlignedRecord c p pos f h l)
            | none => none) := by
  refine ⟨?_, ?_, ?_, ?_⟩
  · intro p hp; rw [effective_position, hp]
  · intro hp; rw [effective_position, hp]
  · intro hp ho
    have heff : effective_position c = none := by
      rw [effective_position, hp, ho]
    simp only [alignComment]
    rw [heff]
    cases c.path with
    | none => rfl
    | some p =>
      dsimp only
      by_cases he : (p == "") = true
      · rw [if_pos he]
      · rw [if_neg he]
  · intro pos hpos
    simp only [alignComment]
    rw [hpos]

theorem c1_witness :
    alignComment fixDiff1 cScenB ≠ none ∧ alignComment fixDiff1 cOutd = none := by
  constructor
  · have h := (c1_effective_position fixDiff1 cScenB).2.2.2 2 (by decide)
    rw [h]
    decide
  · exact (c1_effective_position fixDiff1 cOutd).2.2.1 rfl rfl

/-- C10: no fallback from a failed `position` to `original_position`: when
`position` is non-null the outcome is a function of that position alone
(the right-hand side never consults `original_position`), and if the walk
does not reach that position the comment is skipped even when
`original_position` would have resolved to an existing line. -/
theorem c10_no_original_position_fallback (d : ParsedDiff) (c : RawComment)
    (p : Int) (hpos : c.position = some p) :
    (alignComment d c =
      match c.path with
      | none => none
      | some q =>
        if q == "" then none
        else
          match find_hunk_and_line_for_comment d (some q) (some p) with
          | some (f, h, l) => some (mkAlignedRecord c q p f h l)
          | none => none) ∧
    (find_hunk_and_line_for_comment d c.path (some p) = none →
      alignComment d c = none) := by
  have heff : effective_position c = some p := by rw [effective_position, hpos]
  constructor
  · simp only [alignComment]
    rw [heff]
  · intro hfail
    simp only [alignComment]
    rw [heff]
    cases hp : c.path with
    | none => rfl
    | some q =>
      rw [hp] at hfail
      dsimp only
      by_cases he : (q == "") = true
      · rw [if_pos he]
      · rw [if_neg he, hfail]

theorem c10_witness :
    find_hunk_and_line_for_comment fixDiff1 (some "src/app.py") (some 1) ≠ none ∧
    cStale.original_position = some 1 ∧
    alignComment fixDiff1 cStale = none := by
  refine ⟨by decide, rfl, ?_⟩
  exact (c10_no_original_position_fallback fixDiff1 cStale 99 rfl).2 (by decide)

/-- C2 (amended): file lookup scans the FileDiffs in diff order and, per
file, tries the exact test (raw source path, raw target path, or
prefix-stripped `path` attribute equal to the comment path) and then the
suffix test (source or target path ends with `"/" ++ path`); the comment is
skipped (FileNotFound) exactly when no file passes either test, in which
case the resolver and the aligner both return nothing.  The two tiers are
interleaved per file, not phased over the whole diff: see the
counterexample. -/
theorem c2_file_lookup (files : List PatchedFile) (p : String) :
    (findFileForComment files p = none ↔
      ∀ f ∈ files, fileMatchesAny f p = false) ∧
    (∀ pos : Int, findFileForComment files p = none →
      find_hunk_and_line_for_comment files (some p) (some pos) = none) ∧
    (∀ c : RawComment, c.path = some p → findFileForComment files p = none →
      alignComment files c = none) := by
  refine ⟨findFile_none_iff files p, ?_, ?_⟩
  · intro pos hnone
    rw [find_hunk_and_line_for_comment]
    by_cases hguard : (p == "" || decide (pos ≤ 0)) = true
    · rw [if_pos hguard]
    · rw [if_neg hguard, hnone]
  · intro c hp hnone
    simp only [alignComment]
    rw [hp]
    dsimp only
    by_cases he : (p == "") = true
    · rw [if_pos he]
    · rw [if_neg he]
      cases heff : effective_position c with
      | none => rfl
      | some pos =>
        dsimp only
        by_cases hguard : (p == "" || decide (pos ≤ 0)) = true
        · rw [find_hunk_and_line_for_comment, if_pos hguard]
        · rw [find_hunk_and_line_for_comment, if_neg hguard, hnone]

/-- C2, counterexample to the claim as stated: the diff holds a file
(`exFtop`) whose raw source path exactly equals the comment path `"m.py"`,
yet the source selects the earlier file `exFsub`, which only
suffix-matches — an exact match elsewhere in the diff does not take
precedence, contradicting the claimed whole-diff exact-first policy
(`findFileTwoTierSpec`). -/
theorem c2_counterexample :
    findFileForComment [exFsub, exFtop] "m.py" = some exFsub ∧
    findFileTwoTierSpec [exFsub, exFtop] "m.py" = some exFtop ∧
    (exFtop.source_file == "m.py") = true ∧
    (exFsub.source_file == "m.py") = false ∧
    (exFsub.target_file == "m.py") = false ∧
    exFsub ≠ exFtop := by decide

theorem c2_witness :
    find_hunk_and_line_for_comment [exFsub, exFtop] (some "zzz.py") (some 1) = none ∧
    alignComment [exFsub, exFtop]
      { baseComment with path := some "zzz.py", position := some 1 } = none := by
  constructor
  · exact (c2_file_lookup [exFsub, exFtop] "zzz.py").2.1 1 (by decide)
  · exact (c2_file_lookup [exFsub, exFtop] "zzz.py").2.2
      { baseComment with path := some "zzz.py", position := some 1 } rfl (by decide)

/-- C5: for every emitted record, `line_offset` is the 0-based offset of
the resolved line within its hunk: the resolved line is Added or Context
and `line_offset = target_line_no − hunk.target_start`; the Removed branch
of the source's formula (`source_line_no − hunk.source_start`) is
unreachable (stated vacuously).  Stated under the parse invariant `WFFile`
(context/added lines carry a target line number). -/
theorem c5_line_offset (d : ParsedDiff) (c : RawComment) (r : AlignedRecord)
    (hwf : d.all WFFile = true) (halign : alignComment d c = some r) :
    ∃ f hk l, find_hunk_and_line_for_comment d c.path (effective_position c) =
        some (f, hk, l) ∧
      (∃ t, l.target_line_no = some t ∧
        (l.kind = LineKind.added ∨ l.kind = LineKind.context) ∧
        r.line_offset = t - hk.target_start) ∧
      (l.kind = LineKind.removed →
        ∃ s, l.source_line_no = some s ∧ r.line_offset = s - hk.source_start) := by
  simp only [alignComment] at halign
  cases hp : c.path with
  | none => rw [hp] at halign; cases halign
  | some p =>
    rw [hp] at halign
    dsimp only at halign
    by_cases he : (p == "") = true
    · rw [if_pos he] at halign; cases halign
    · rw [if_neg he] at halign
      cases heff : effective_position c with
      | none => rw [heff] at halign; cases halign
      | some pos =>
        rw [heff] at halign
        dsimp only at halign
        cases hff : find_hunk_and_line_for_comment d (some p) (some pos) with
        | none => rw [hff] at halign; cases halign
        | some tr =>
          rw [hff] at halign
          obtain ⟨f, hk, l⟩ := tr
          simp only [Option.some.injEq] at halign
          obtain ⟨hfd, hhf, hlh, hcnt⟩ := find_result_line hff
          have hwl : WFLine l = true := by
            have h1 := List.all_eq_true.mp hwf f hfd
            rw [WFFile] at h1
            have h2 := List.all_eq_true.mp h1 hk hhf
            exact List.all_eq_true.mp h2 l hlh
          obtain ⟨t, ht⟩ := WFLine_target hwl hcnt
          refine ⟨f, hk, l, rfl, ⟨t, ht, ?_, ?_⟩, ?_⟩
          · rcases countsForPosition_kind hcnt with hck | hck
            · exact Or.inr hck
            · exact Or.inl hck
          · rw [← halign]
            show line_offset_of hk l = t - hk.target_start
            rw [line_offset_of, if_pos (by rw [← countsForPosition]; exact hcnt),
              ht]
            rfl
          · intro hrem
            rcases countsForPosition_kind hcnt with hck | hck <;>
              rw [hck] at hrem <;> cases hrem

theorem c5_witness :
    ∃ f hk l, find_hunk_and_line_for_comment fixDiff1 cScenB.path
        (effective_position cScenB) = some (f, hk, l) ∧
      (∃ t, l.target_line_no = some t ∧
        (l.kind = LineKind.added ∨ l.kind = LineKind.context) ∧
        fixRecB.line_offset = t - hk.target_start) ∧
      (l.kind = LineKind.removed →
        ∃ s, l.source_line_no = some s ∧
          fixRecB.line_offset = s - hk.source_start) :=
  c5_line_offset fixDiff1 cScenB fixRecB (by decide) (by decide)

/-- C7 (amended): the aligner returns the aligned records and a bare count
of skipped comments: every comment is either aligned or counted
(`aligned.length + skipped = total`, so none is silently dropped), a skip
never aborts processing, and each comment's outcome combines with the
processing of the remaining comments.  The source records no per-comment
(comment, reason) pairs: see the counterexample. -/
theorem c7_skip_accounting (d : ParsedDiff) (cs : List RawComment) :
    ((processComments d cs).1.length + (processComments d cs).2 = cs.length) ∧
    (∀ c, processComments d (c :: cs) =
      match alignComment d c with
      | some r => (r :: (processComments d cs).1, (processComments d cs).2)
      | none => ((processComments d cs).1, (processComments d cs).2 + 1)) := by
  constructor
  · induction cs with
    | nil => rfl
    | cons c rest ih =>
      rw [processComments]
      cases halign : alignComment d c with
      | some r =>
        dsimp only
        simp only [List.length_cons]
        omega
      | none =>
        dsimp only
        simp only [List.length_cons]
        omega
  · intro c
    rfl

/-- C7, counterexample to the claim as stated: two single-comment inputs
whose spec-side skip reasons differ (`GeneralComment` vs `Outdated`,
`classifyCommentSpec`) produce identical aligner output `([], 1)` — the
output holds only a count, so no (comment, SkipReason) pair is recorded in
or recoverable from what the aligner returns. -/
theorem c7_counterexample :
    processComments [] [cGen] = processComments [] [cOutd] ∧
    processComments [] [cGen] = ([], 1) ∧
    classifyCommentSpec [] cGen = some SkipReason.GeneralComment ∧
    classifyCommentSpec [] cOutd = some SkipReason.Outdated ∧
    SkipReason.GeneralComment ≠ SkipReason.Outdated := by decide

/-- C8 (amended): rename tolerance up to the path passthrough: with an
unambiguous match (both names select the same FileDiff), a comment using
the pre-rename `source_file` name resolves to exactly the same file, hunk
and line as one using the post-rename `target_file` name, and the two
emitted records agree on every field except `comment_path`, which echoes
each comment's own path. -/
theorem c8_rename_tolerance (d : ParsedDiff) (f : PatchedFile)
    (src tgt : String) (pos : Int) (c1 c2 : RawComment)
    (hsrc : f.source_file = src) (htgt : f.target_file = tgt)
    (h1 : findFileForComment d src = some f)
    (h2 : findFileForComment d tgt = some f)
    (hs : src ≠ "") (ht : tgt ≠ "")
    (hc1 : c1.path = some src) (hc2 : c2 = { c1 with path := some tgt }) :
    (find_hunk_and_line_for_comment d (some src) (some pos) =
        ((walkHunks f.hunks 0 pos).1).map (fun hl => (f, hl.1, hl.2)) ∧
      find_hunk_and_line_for_comment d (some tgt) (some pos) =
        ((walkHunks f.hunks 0 pos).1).map (fun hl => (f, hl.1, hl.2))) ∧
    (alignComment d c1).map (fun r => { r with comment_path := "" }) =
      (alignComment d c2).map (fun r => { r with comment_path := "" }) := by
  have hfind : ∀ (q : String) (k : Int), q ≠ "" →
      findFileForComment d q = some f →
      find_hunk_and_line_for_comment d (some q) (some k) =
        ((walkHunks f.hunks 0 k).1).map (fun hl => (f, hl.1, hl.2)) := by
    intro q k hq hfq
    rw [find_hunk_and_line_for_comment]
    by_cases hguard : (q == "" || decide (k ≤ 0)) = true
    · rw [if_pos hguard]
      have hqb : (q == "") = false := by simp [hq]
      rw [hqb] at hguard
      have hk0 : k ≤ 0 := of_decide_eq_true (by simpa using hguard)
      rw [walkHunks_spec, if_neg (by omega)]
      rfl
    · rw [if_neg hguard, hfq]
      dsimp only
      cases hwk : (walkHunks f.hunks 0 k).1 with
      | none => rfl
      | some pr => cases pr; rfl
  subst hc2
  refine ⟨⟨hfind src pos hs h1, hfind tgt pos ht h2⟩, ?_⟩
  simp only [alignComment]
  rw [hc1]
  dsimp only
  have hsb : ¬(src == "") = true := by simp [hs]
  have htb : ¬(tgt == "") = true := by simp [ht]
  rw [if_neg hsb, if_neg htb]
  have heff : effective_position { c1 with path := some tgt } =
      effective_position c1 := rfl
  rw [heff]
  cases heffv : effective_position c1 with
  | none => rfl
  | some k =>
    dsimp only
    rw [hfind src k hs h1, hfind tgt k ht h2]
    cases hwk : (walkHunks f.hunks 0 k).1 with
    | none => rfl
    | some pr =>
      obtain ⟨hk, l⟩ := pr
      dsimp only [Option.map]
      rfl

/-- C8, counterexample to the claim as stated: on a renamed file the two
otherwise identical comments both resolve, but their AlignedRecords are
not equal — the `comment_path` passthrough field differs (`"old.py"` vs
`"new.py"`). -/
theorem c8_counterexample :
    (alignComment [renFile] cRenSrc).map (fun r => r.comment_path) =
      some "old.py" ∧
    (alignComment [renFile] cRenTgt).map (fun r => r.comment_path) =
      some "new.py" ∧
    alignComment [renFile] cRenSrc ≠ alignComment [renFile] cRenTgt := by
  decide

theorem c8_witness :
    (alignComment [renFile] cRenSrc).isSome = true ∧
    (alignComment [renFile] cRenSrc).map
        (fun r => { r with comment_path := "" }) =
      (alignComment [renFile] cRenTgt).map
        (fun r => { r with comment_path := "" }) :=
  ⟨by decide,
   (c8_rename_tolerance [renFile] renFile "old.py" "new.py" 2 cRenSrc cRenTgt
      rfl rfl (by decide) (by decide) (by decide) (by decide) rfl rfl).2⟩
